import Mathlib

/-!
Verification of the Calibration-Demo least-squares calibration core.

Shallow embedding of the Go sources (`ComputeFactors`, `ComputeWeight`,
`solve4x4`, `det4x4`, and the diagnostics block of `main`) over exact
rationals: every Go `float64` value is modelled as a `ℚ`, so the algebraic
structure of the algorithms (loop order, pivot selection, row operations,
error paths) is represented exactly.

Go errors are modelled by `GoErr`: `errors.New(msg)` becomes `GoErr.new msg`
and `fmt.Errorf("...: %w", err)` becomes `GoErr.wrapped msg err`, preserving
the wrapped cause exactly as Go's error-wrapping does.
-/

/-- Four-component vector of rationals, standing for Go `[4]float64`. -/
abbrev Vec4 : Type := Fin 4 → ℚ

/-- A 4×4 matrix of rationals, standing for Go `[4][4]float64`. -/
abbrev Mat4 : Type := Fin 4 → Fin 4 → ℚ

/-- Go `error` values: `new` is `errors.New(msg)`, `wrapped` is
`fmt.Errorf(msg + ": %w", inner)`. -/
inductive GoErr : Type where
  | new : String → GoErr
  | wrapped : String → GoErr → GoErr
deriving DecidableEq

/-- Go `errors.Is`: walks the wrapping chain looking for the target. -/
def errorsIs (e target : GoErr) : Bool :=
  e = target ||
    match e with
    | GoErr.new _ => false
    | GoErr.wrapped _ inner => errorsIs inner target

/-- The error built by `errors.New("matrix is singular (zero pivot)")`
in `solve4x4`'s forward elimination. -/
def pivotErr : GoErr := GoErr.new ("matrix is singular (zero pivot)")

/-- The error built by `errors.New("singular matrix during back substitution")`
in `solve4x4`'s back substitution. -/
def backSubErr : GoErr := GoErr.new ("singular matrix during back substitution")

/-- The Go helper `abs` (and `math.Abs` in `det4x4`):
`if a < 0 { return -a }; return a`. -/
def fabs (a : ℚ) : ℚ := if a < 0 then -a else a

/-- The rows scanned by the pivot-search loop `for r := col + 1; r < 4; r++`. -/
def rowsAfter : Fin 4 → List (Fin 4) := ![[1, 2, 3], [2, 3], [3], []]

/-- The pivot-search loop body: starting from state `(pivot, maxAbs)`,
scan the remaining rows, replacing the state whenever `|f r| > maxAbs`
(strict comparison, exactly as in the source). -/
def pivotLoop (f : Fin 4 → ℚ) : List (Fin 4) → Fin 4 × ℚ → Fin 4 × ℚ
  | [], st => st
  | r :: rs, st => pivotLoop f rs (if fabs (f r) > st.2 then (r, fabs (f r)) else st)

/-- Pivot search of `solve4x4` and `det4x4` at column `col`:
`pivot := col; maxAbs := abs(m[col][col])`, then scan rows `col+1 .. 3`.
Returns `(pivot, maxAbs)`. -/
def findPivot (M : Mat4) (col : Fin 4) : Fin 4 × ℚ :=
  pivotLoop (fun r => M r col) (rowsAfter col) (col, fabs (M col col))

/-- Swap entries `i` and `j` of a row-indexed family (Go
`aug[col], aug[pivot] = aug[pivot], aug[col]`). -/
def swapRows {α : Type} (f : Fin 4 → α) (i j : Fin 4) : Fin 4 → α :=
  fun r => if r = i then f j else if r = j then f i else f r

/-- Elimination below the pivot on a bare 4×4 matrix (`det4x4`'s inner loops):
for each row `r > col`, subtract `factor * row[col]` at columns `c ≥ col`,
with `factor = m[r][col] / m[col][col]` read before the row is modified. -/
def elimBelow (M : Mat4) (col : Fin 4) : Mat4 :=
  fun r c =>
    if col < r ∧ col ≤ c then M r c - M r col / M col col * M col c else M r c

/-- State of `solve4x4`'s augmented matrix `aug = [A | b]`: `M` holds the
first four columns, `v` holds column 4 (the right-hand side). -/
structure AugState : Type where
  M : Mat4
  v : Vec4

/-- Elimination below the pivot on the augmented matrix (`solve4x4`'s inner
loops, with the column range `c = col .. 4` covering both `M` and `v`). -/
def elimAug (s : AugState) (col : Fin 4) : AugState where
  M := fun r c =>
    if col < r ∧ col ≤ c then s.M r c - s.M r col / s.M col col * s.M col c
    else s.M r c
  v := fun r =>
    if col < r then s.v r - s.M r col / s.M col col * s.v col else s.v r

/-- One column step of `solve4x4`'s forward elimination: pivot search,
singularity check, conditional row swap, elimination below. -/
def solveStep (s : AugState) (col : Fin 4) : Except GoErr AugState :=
  let fp := findPivot s.M col
  if fp.2 = 0 then Except.error pivotErr
  else
    let s1 :=
      if fp.1 = col then s
      else { M := swapRows s.M col fp.1, v := swapRows s.v col fp.1 }
    Except.ok (elimAug s1 col)

/-- The forward-elimination loop of `solve4x4`: `for col := 0; col < 4; col++`. -/
def elimLoop : List (Fin 4) → AugState → Except GoErr AugState
  | [], s => Except.ok s
  | col :: rest, s =>
    match solveStep s col with
    | Except.error e => Except.error e
    | Except.ok s1 => elimLoop rest s1

/-- Forward elimination over the four columns, in order. -/
def forwardElim (s : AugState) : Except GoErr AugState := elimLoop [0, 1, 2, 3] s

/-- Back substitution of `solve4x4`, from row 3 down to row 0, re-checking
each diagonal entry for zero (`errors.New("singular matrix during back
substitution")`). `sum := aug[i][4]` then subtracts `aug[i][j]*x[j]` for
`j = i+1 .. 3`, and `x[i] = sum / aug[i][i]`. -/
def backSub (s : AugState) : Except GoErr Vec4 :=
  if s.M 3 3 = 0 then Except.error backSubErr else
  let x3 := s.v 3 / s.M 3 3
  if s.M 2 2 = 0 then Except.error backSubErr else
  let x2 := (s.v 2 - s.M 2 3 * x3) / s.M 2 2
  if s.M 1 1 = 0 then Except.error backSubErr else
  let x1 := (s.v 1 - s.M 1 2 * x2 - s.M 1 3 * x3) / s.M 1 1
  if s.M 0 0 = 0 then Except.error backSubErr else
  let x0 := (s.v 0 - s.M 0 1 * x1 - s.M 0 2 * x2 - s.M 0 3 * x3) / s.M 0 0
  Except.ok ![x0, x1, x2, x3]

/-- Model of `solve4x4(A, b)`: forward elimination on the augmented matrix, then
back substitution. On error Go returns the zero vector alongside the error;
the `Except` model keeps just the error (callers only read the vector when
the error is nil). -/
def solve4x4 (A : Mat4) (b : Vec4) : Except GoErr Vec4 :=
  match forwardElim { M := A, v := b } with
  | Except.error e => Except.error e
  | Except.ok s => backSub s

/-- The column loop of `det4x4`, carrying the working copy `m` and the
accumulators `det` and `sign`; returns `det * sign` after the last column,
or `0.0` as soon as a pivot column's `maxAbs` is zero. -/
def detLoop : List (Fin 4) → Mat4 → ℚ → ℚ → ℚ
  | [], _, det, sign => det * sign
  | col :: rest, m, det, sign =>
    let fp := findPivot m col
    if fp.2 = 0 then 0
    else
      let m1 := if fp.1 = col then m else swapRows m col fp.1
      let sg1 := if fp.1 = col then sign else -sign
      detLoop rest (elimBelow m1 col) (det * m1 col col) sg1

/-- Model of `det4x4(A)`: LU-style elimination with partial pivoting on a copy of
`A`, starting from `det := 1.0`, `sign := 1.0`. -/
def det4x4 (A : Mat4) : ℚ := detLoop [0, 1, 2, 3] A 1 1

/-- Model of `CalibrationData` (types.go): five measurement vectors, a zero
reference, and the single calibration weight. -/
structure CalibrationData : Type where
  CalibrationWeight : ℚ
  Zero : Vec4
  OnCell0 : Vec4
  OnCell1 : Vec4
  OnCell2 : Vec4
  OnCell3 : Vec4
  OnCenter : Vec4

/-- The measurements array built in `ComputeFactors`, in source order
`cell0..cell3, center`. -/
def measurements (cal : CalibrationData) : Fin 5 → Vec4 :=
  ![cal.OnCell0, cal.OnCell1, cal.OnCell2, cal.OnCell3, cal.OnCenter]

/-- The running-sum loop `sum := 0.0; for k := 0; k < m; k++ { sum += f(k) }`
for `m = 5`, accumulated in index order. -/
def sum5 (f : Fin 5 → ℚ) : ℚ := 0 + f 0 + f 1 + f 2 + f 3 + f 4

/-- The running-sum loop for `m = 4` (`ComputeWeight`, diagnostics),
accumulated in index order. -/
def sum4 (f : Fin 4 → ℚ) : ℚ := 0 + f 0 + f 1 + f 2 + f 3

/-- The design matrix `X` of `ComputeFactors`:
`X[k][j] = measurements[k][j] - cal.Zero[j]`. -/
def buildX (cal : CalibrationData) : Fin 5 → Fin 4 → ℚ :=
  fun k j => measurements cal k j - cal.Zero j

/-- The observation vector `y` of `ComputeFactors`: all five entries equal
to the calibration weight `W`. -/
def buildY (cal : CalibrationData) : Fin 5 → ℚ :=
  fun _ => cal.CalibrationWeight

/-- The pre-ridge normal matrix `A = Xᵗ X` of `ComputeFactors`, each entry
accumulated over `k = 0 .. 4` in order. -/
def buildA0 (cal : CalibrationData) : Mat4 :=
  fun i j => sum5 (fun k => buildX cal k i * buildX cal k j)

/-- The right-hand side `b = Xᵗ y` of `ComputeFactors`, each entry
accumulated over `k = 0 .. 4` in order. -/
def buildB (cal : CalibrationData) : Vec4 :=
  fun i => sum5 (fun k => buildX cal k i * buildY cal k)

/-- The ridge block of `ComputeFactors`:
`if ridge != 0 { for i { A[i][i] += ridge } }`. -/
def ridgeA (A : Mat4) (ridge : ℚ) : Mat4 :=
  if ridge ≠ 0 then fun i j => if i = j then A i j + ridge else A i j else A

/-- Model of `ComputeFactors(cal, ridge)` returning `(factors, A, b, err)`.
On solver failure Go leaves `factors` at its zero value and wraps the error
with `fmt.Errorf("could not solve normal equations: %w", err)`. -/
def ComputeFactors (cal : CalibrationData) (ridge : ℚ) :
    Vec4 × Mat4 × Vec4 × Option GoErr :=
  match solve4x4 (ridgeA (buildA0 cal) ridge) (buildB cal) with
  | Except.error e =>
      (fun _ => 0, ridgeA (buildA0 cal) ridge, buildB cal,
        some (GoErr.wrapped ("could not solve normal equations") e))
  | Except.ok sol => (sol, ridgeA (buildA0 cal) ridge, buildB cal, none)

/-- Model of `ComputeWeight(adc, zero, factors)`:
`w := 0.0; for i { w += factors[i] * (adc[i] - zero[i]) }`. -/
def ComputeWeight (adc zero factors : Vec4) : ℚ :=
  sum4 (fun i => factors i * (adc i - zero i))

/-- The RSS loop of `main`: over the five calibration rows (in the order of
`calibRows`, which matches `measurements`), accumulate the squared residual
`(W - est)^2` where `est` is the inline weight estimate. -/
def diagRSS (cal : CalibrationData) (factors : Vec4) : ℚ :=
  sum5 (fun k =>
    let est := sum4 (fun i => factors i * (measurements cal k i - cal.Zero i))
    (cal.CalibrationWeight - est) * (cal.CalibrationWeight - est))

/-- The degrees of freedom `df := float64(m - 4)` with `m = len(calibRows) = 5`. -/
def diagDf : ℚ := (5 : ℚ) - 4

/-- The branch `if df > 0 { residualVar = rss / df } else { residualVar = rss }`. -/
def diagResidualVar (cal : CalibrationData) (factors : Vec4) : ℚ :=
  if 0 < diagDf then diagRSS cal factors / diagDf else diagRSS cal factors

/-- The metric `errorDet := detA * residualVar` with `detA := det4x4(A)`. -/
def diagErrorDet (cal : CalibrationData) (factors : Vec4) (A : Mat4) : ℚ :=
  det4x4 A * diagResidualVar cal factors

/-- The flag `CalibrationOK: residualVar < 1e-6` (the decimal literal `1e-6` read as
the rational 1/1000000). -/
def diagOK (cal : CalibrationData) (factors : Vec4) : Bool :=
  diagResidualVar cal factors < 1 / 1000000

/-- A pivot column is dead at `col` when every candidate entry (rows
`col .. 3` of column `col`) is zero — equivalently, the loop's maximal
absolute value is exactly zero. -/
def zeroColumn (M : Mat4) (col : Fin 4) : Prop :=
  ∀ r, col ≤ r → M r col = 0

/-! ## Basic lemmas: `fabs`, pivot search, row swaps -/

theorem fabs_eq_abs (a : ℚ) : fabs a = |a| := by
  unfold fabs
  rcases lt_or_ge a 0 with h | h
  · rw [if_pos h, abs_of_neg h]
  · rw [if_neg (not_lt.mpr h), abs_of_nonneg h]

theorem fabs_nonneg (a : ℚ) : 0 ≤ fabs a := by
  rw [fabs_eq_abs]; exact abs_nonneg a

theorem fabs_eq_zero_iff (a : ℚ) : fabs a = 0 ↔ a = 0 := by
  rw [fabs_eq_abs]; exact abs_eq_zero

theorem pivotLoop_snd (f : Fin 4 → ℚ) (rs : List (Fin 4)) (st : Fin 4 × ℚ)
    (h : st.2 = fabs (f st.1)) :
    (pivotLoop f rs st).2 = fabs (f (pivotLoop f rs st).1) := by
  induction rs generalizing st with
  | nil => exact h
  | cons r rs ih =>
    simp only [pivotLoop]
    by_cases hc : fabs (f r) > st.2
    · rw [if_pos hc]; exact ih ((r, fabs (f r))) rfl
    · rw [if_neg hc]; exact ih st h

theorem pivotLoop_ge_start (f : Fin 4 → ℚ) (rs : List (Fin 4)) (st : Fin 4 × ℚ) :
    st.2 ≤ (pivotLoop f rs st).2 := by
  induction rs generalizing st with
  | nil => exact le_refl _
  | cons r rs ih =>
    simp only [pivotLoop]
    by_cases hc : fabs (f r) > st.2
    · rw [if_pos hc]
      exact le_trans (le_of_lt hc) (ih ((r, fabs (f r))))
    · rw [if_neg hc]; exact ih st

theorem pivotLoop_ge_mem (f : Fin 4 → ℚ) (rs : List (Fin 4)) (st : Fin 4 × ℚ) :
    ∀ r ∈ rs, fabs (f r) ≤ (pivotLoop f rs st).2 := by
  induction rs generalizing st with
  | nil => intro r hr; exact absurd hr (List.not_mem_nil r)
  | cons a rs ih =>
    intro r hr
    simp only [pivotLoop]
    rcases List.mem_cons.mp hr with h | h
    · subst h
      by_cases hc : fabs (f r) > st.2
      · rw [if_pos hc]
        exact pivotLoop_ge_start f rs ((r, fabs (f r)))
      · rw [if_neg hc]
        exact le_trans (not_lt.mp hc) (pivotLoop_ge_start f rs st)
    · by_cases hc : fabs (f a) > st.2
      · rw [if_pos hc]; exact ih _ r h
      · rw [if_neg hc]; exact ih st r h

theorem pivotLoop_fst_mem (f : Fin 4 → ℚ) (rs : List (Fin 4)) (st : Fin 4 × ℚ) :
    (pivotLoop f rs st).1 = st.1 ∨ (pivotLoop f rs st).1 ∈ rs := by
  induction rs generalizing st with
  | nil => exact Or.inl rfl
  | cons a rs ih =>
    simp only [pivotLoop]
    by_cases hc : fabs (f a) > st.2
    · rw [if_pos hc]
      rcases ih ((a, fabs (f a))) with h | h
      · exact Or.inr (List.mem_cons.mpr (Or.inl h))
      · exact Or.inr (List.mem_cons.mpr (Or.inr h))
    · rw [if_neg hc]
      rcases ih st with h | h
      · exact Or.inl h
      · exact Or.inr (List.mem_cons.mpr (Or.inr h))

theorem mem_rowsAfter_iff : ∀ col r : Fin 4, (r = col ∨ r ∈ rowsAfter col) ↔ col ≤ r := by
  decide

theorem findPivot_snd (M : Mat4) (col : Fin 4) :
    (findPivot M col).2 = fabs (M (findPivot M col).1 col) :=
  pivotLoop_snd _ _ _ rfl

theorem findPivot_fst_ge (M : Mat4) (col : Fin 4) : col ≤ (findPivot M col).1 := by
  have h := pivotLoop_fst_mem (fun r => M r col) (rowsAfter col) ((col, fabs (M col col)))
  exact (mem_rowsAfter_iff col (findPivot M col).1).mp h

theorem findPivot_max (M : Mat4) (col : Fin 4) :
    ∀ r, col ≤ r → fabs (M r col) ≤ (findPivot M col).2 := by
  intro r hr
  rcases (mem_rowsAfter_iff col r).mpr hr with h | h
  · subst h
    exact pivotLoop_ge_start (fun x => M x r) (rowsAfter r) ((r, fabs (M r r)))
  · exact pivotLoop_ge_mem (fun x => M x col) (rowsAfter col) _ r h

theorem findPivot_zero_iff (M : Mat4) (col : Fin 4) :
    (findPivot M col).2 = 0 ↔ zeroColumn M col := by
  constructor
  · intro h r hr
    have h1 := findPivot_max M col r hr
    rw [h] at h1
    exact (fabs_eq_zero_iff _).mp (le_antisymm h1 (fabs_nonneg _))
  · intro h
    rw [findPivot_snd]
    rw [h _ (findPivot_fst_ge M col)]
    rfl

theorem findPivot_ne_zero (M : Mat4) (col : Fin 4) (h : (findPivot M col).2 ≠ 0) :
    M (findPivot M col).1 col ≠ 0 := by
  intro h0
  apply h
  rw [findPivot_snd, h0]
  rfl

theorem swapRows_left {α : Type} (f : Fin 4 → α) (i j : Fin 4) : swapRows f i j i = f j := by
  unfold swapRows
  rw [if_pos rfl]

theorem swapRows_other {α : Type} (f : Fin 4 → α) (i j r : Fin 4)
    (h1 : r ≠ i) (h2 : r ≠ j) : swapRows f i j r = f r := by
  unfold swapRows
  rw [if_neg h1, if_neg h2]

theorem swapRows_self {α : Type} (f : Fin 4 → α) (i : Fin 4) : swapRows f i i = f := by
  funext r
  unfold swapRows
  by_cases h : r = i
  · subst h; rw [if_pos rfl]
  · rw [if_neg h, if_neg h]

theorem swapRows_eq_perm {α : Type} (f : Fin 4 → α) (i j : Fin 4) :
    swapRows f i j = fun r => f (Equiv.swap i j r) := by
  funext r
  unfold swapRows
  rw [Equiv.swap_apply_def]
  by_cases h1 : r = i
  · rw [if_pos h1, if_pos h1]
  · rw [if_neg h1, if_neg h1]
    by_cases h2 : r = j
    · rw [if_pos h2, if_pos h2]
    · rw [if_neg h2, if_neg h2]

/-! ## Stage decomposition of the elimination

Both `solve4x4` and `det4x4` evolve their working matrix the same way at
each column: pivot search, conditional row swap, elimination below.
`stepM` is that common matrix evolution; `stage1 .. stage4` name the
intermediate matrices of a run started on `A`. -/

/-- The matrix after processing one column: conditional swap with the pivot
row, then elimination below the pivot. -/
def stepM (M : Mat4) (col : Fin 4) : Mat4 :=
  elimBelow (if (findPivot M col).1 = col then M else swapRows M col (findPivot M col).1) col

/-- Working matrix after processing column 0. -/
def stage1 (A : Mat4) : Mat4 := stepM A 0

/-- Working matrix after processing columns 0 and 1. -/
def stage2 (A : Mat4) : Mat4 := stepM (stage1 A) 1

/-- Working matrix after processing columns 0, 1 and 2. -/
def stage3 (A : Mat4) : Mat4 := stepM (stage2 A) 2

/-- Working matrix after processing all four columns. -/
def stage4 (A : Mat4) : Mat4 := stepM (stage3 A) 3

/-- The pivot entry selected at column `col` of working matrix `M` (the
entry moved onto the diagonal by the conditional swap). -/
def pivotVal (M : Mat4) (col : Fin 4) : ℚ := M (findPivot M col).1 col

/-- Number of row swaps performed over the four columns of a run on `A`. -/
def swapCount (A : Mat4) : ℕ :=
  (if (findPivot A 0).1 = 0 then 0 else 1) +
    (if (findPivot (stage1 A) 1).1 = 1 then 0 else 1) +
    (if (findPivot (stage2 A) 2).1 = 2 then 0 else 1) +
    (if (findPivot (stage3 A) 3).1 = 3 then 0 else 1)

/-- Some forward-elimination column's candidate entries (rows `col .. 3`)
are all zero — the condition under which the pivot search's maximal
absolute value is exactly zero. -/
def hitsZero (A : Mat4) : Prop :=
  zeroColumn A 0 ∨ zeroColumn (stage1 A) 1 ∨
    zeroColumn (stage2 A) 2 ∨ zeroColumn (stage3 A) 3

/-- Entries strictly below the diagonal are zero in the first `n` columns. -/
def belowDiagZero (M : Mat4) (n : ℕ) : Prop :=
  ∀ r c : Fin 4, (c : ℕ) < n → c < r → M r c = 0

theorem swapped_col_eq_pivotVal (M : Mat4) (col : Fin 4) :
    (if (findPivot M col).1 = col then M else swapRows M col (findPivot M col).1) col col =
      pivotVal M col := by
  by_cases h : (findPivot M col).1 = col
  · rw [if_pos h]
    unfold pivotVal
    rw [h]
  · rw [if_neg h, swapRows_left]
    rfl

theorem swapped_col_zero (M : Mat4) (col r : Fin 4) (hz : zeroColumn M col)
    (hr : col ≤ r) :
    (if (findPivot M col).1 = col then M else swapRows M col (findPivot M col).1) r col = 0 := by
  by_cases h : (findPivot M col).1 = col
  · rw [if_pos h]; exact hz r hr
  · rw [if_neg h]
    unfold swapRows
    by_cases h1 : r = col
    · rw [if_pos h1]; exact hz _ (findPivot_fst_ge M col)
    · rw [if_neg h1]
      by_cases h2 : r = (findPivot M col).1
      · rw [if_pos h2]; exact hz col (le_refl col)
      · rw [if_neg h2]; exact hz r hr

theorem stepM_diag (M : Mat4) (col : Fin 4) : stepM M col col col = pivotVal M col := by
  unfold stepM elimBelow
  rw [if_neg (by simp [lt_irrefl])]
  exact swapped_col_eq_pivotVal M col

theorem stepM_row_lt (M : Mat4) (col r : Fin 4) (h : r < col) (c : Fin 4) :
    stepM M col r c = M r c := by
  unfold stepM elimBelow
  rw [if_neg (by intro hc; exact absurd (lt_trans h hc.1) (lt_irrefl r))]
  by_cases hp : (findPivot M col).1 = col
  · rw [if_pos hp]
  · rw [if_neg hp]
    exact congrFun (swapRows_other M col (findPivot M col).1 r (ne_of_lt h)
      (ne_of_lt (lt_of_lt_of_le h (findPivot_fst_ge M col)))) c

theorem stepM_col_zero (M : Mat4) (col r : Fin 4) (h : col < r) :
    stepM M col r col = 0 := by
  unfold stepM elimBelow
  rw [if_pos (And.intro h (le_refl col))]
  set M1 := if (findPivot M col).1 = col then M else swapRows M col (findPivot M col).1 with hM1
  by_cases hp : M1 col col = 0
  · have hpv : pivotVal M col = 0 := by rw [← swapped_col_eq_pivotVal M col, ← hM1]; exact hp
    have hz : zeroColumn M col := by
      rw [← findPivot_zero_iff]
      rw [findPivot_snd]
      show fabs (pivotVal M col) = 0
      rw [hpv]
      rfl
    have h1 : M1 r col = 0 := by rw [hM1]; exact swapped_col_zero M col r hz (le_of_lt h)
    rw [h1, hp]
    norm_num
  · rw [div_mul_cancel₀ _ hp, sub_self]

theorem stepM_belowDiag (M : Mat4) (col : Fin 4) (h : belowDiagZero M (col : ℕ)) :
    belowDiagZero (stepM M col) ((col : ℕ) + 1) := by
  intro r c hc hcr
  rcases Nat.lt_succ_iff_lt_or_eq.mp hc with hlt | heq
  · have hccol : c < col := by rwa [Fin.lt_def]
    unfold stepM elimBelow
    rw [if_neg (by intro hcond; exact absurd hcond.2 (not_le.mpr hccol))]
    by_cases hp : (findPivot M col).1 = col
    · rw [if_pos hp]; exact h r c hlt hcr
    · rw [if_neg hp]
      unfold swapRows
      by_cases h1 : r = col
      · rw [if_pos h1]
        exact h _ c hlt (lt_of_lt_of_le hccol (findPivot_fst_ge M col))
      · rw [if_neg h1]
        by_cases h2 : r = (findPivot M col).1
        · rw [if_pos h2]; exact h col c hlt hccol
        · rw [if_neg h2]; exact h r c hlt hcr
  · have hcc : c = col := Fin.ext heq
    subst hcc
    exact stepM_col_zero M c r hcr

/-! ## Forward elimination: error characterization -/

theorem pivotVal_ne_zero (M : Mat4) (col : Fin 4) (h : ¬ zeroColumn M col) :
    pivotVal M col ≠ 0 :=
  findPivot_ne_zero M col (fun h0 => h ((findPivot_zero_iff M col).mp h0))

theorem solveStep_eq_error (s : AugState) (col : Fin 4) (h : zeroColumn s.M col) :
    solveStep s col = Except.error pivotErr := by
  unfold solveStep
  rw [if_pos ((findPivot_zero_iff s.M col).mpr h)]

theorem solveStep_ok (s : AugState) (col : Fin 4) (h : ¬ zeroColumn s.M col) :
    ∃ s1, solveStep s col = Except.ok s1 ∧ s1.M = stepM s.M col := by
  unfold solveStep
  rw [if_neg (fun h0 => h ((findPivot_zero_iff s.M col).mp h0))]
  refine ⟨_, rfl, ?_⟩
  show (elimAug (if (findPivot s.M col).1 = col then s
    else { M := swapRows s.M col (findPivot s.M col).1,
           v := swapRows s.v col (findPivot s.M col).1 }) col).M = stepM s.M col
  unfold stepM
  by_cases hp : (findPivot s.M col).1 = col
  · rw [if_pos hp, if_pos hp]; rfl
  · rw [if_neg hp, if_neg hp]; rfl

theorem stage4_diag (A : Mat4) :
    stage4 A 0 0 = pivotVal A 0 ∧ stage4 A 1 1 = pivotVal (stage1 A) 1 ∧
      stage4 A 2 2 = pivotVal (stage2 A) 2 ∧ stage4 A 3 3 = pivotVal (stage3 A) 3 := by
  refine ⟨?_, ?_, ?_, ?_⟩
  · rw [show stage4 A 0 0 = stage3 A 0 0 from stepM_row_lt _ 3 0 (by decide) 0,
      show stage3 A 0 0 = stage2 A 0 0 from stepM_row_lt _ 2 0 (by decide) 0,
      show stage2 A 0 0 = stage1 A 0 0 from stepM_row_lt _ 1 0 (by decide) 0]
    exact stepM_diag A 0
  · rw [show stage4 A 1 1 = stage3 A 1 1 from stepM_row_lt _ 3 1 (by decide) 1,
      show stage3 A 1 1 = stage2 A 1 1 from stepM_row_lt _ 2 1 (by decide) 1]
    exact stepM_diag (stage1 A) 1
  · rw [show stage4 A 2 2 = stage3 A 2 2 from stepM_row_lt _ 3 2 (by decide) 2]
    exact stepM_diag (stage2 A) 2
  · exact stepM_diag (stage3 A) 3

theorem stage4_diag_ne_zero (A : Mat4) (h : ¬ hitsZero A) : ∀ i, stage4 A i i ≠ 0 := by
  unfold hitsZero at h
  push_neg at h
  obtain ⟨h0, h1, h2, h3⟩ := h
  obtain ⟨d0, d1, d2, d3⟩ := stage4_diag A
  intro i
  fin_cases i
  · show stage4 A 0 0 ≠ 0
    rw [d0]; exact pivotVal_ne_zero A 0 h0
  · show stage4 A 1 1 ≠ 0
    rw [d1]; exact pivotVal_ne_zero (stage1 A) 1 h1
  · show stage4 A 2 2 ≠ 0
    rw [d2]; exact pivotVal_ne_zero (stage2 A) 2 h2
  · show stage4 A 3 3 ≠ 0
    rw [d3]; exact pivotVal_ne_zero (stage3 A) 3 h3

theorem elimLoop_cons_ok {col : Fin 4} {rest : List (Fin 4)} {s s1 : AugState}
    (h : solveStep s col = Except.ok s1) :
    elimLoop (col :: rest) s = elimLoop rest s1 := by
  rw [show elimLoop (col :: rest) s =
      (match solveStep s col with
      | Except.error e => Except.error e
      | Except.ok s1 => elimLoop rest s1) from rfl, h]

theorem elimLoop_cons_error {col : Fin 4} {rest : List (Fin 4)} {s : AugState} {e : GoErr}
    (h : solveStep s col = Except.error e) :
    elimLoop (col :: rest) s = Except.error e := by
  rw [show elimLoop (col :: rest) s =
      (match solveStep s col with
      | Except.error e => Except.error e
      | Except.ok s1 => elimLoop rest s1) from rfl, h]

theorem forwardElim_ok (A : Mat4) (b : Vec4) (h : ¬ hitsZero A) :
    ∃ s, forwardElim { M := A, v := b } = Except.ok s ∧ s.M = stage4 A := by
  unfold hitsZero at h
  push_neg at h
  obtain ⟨h0, h1, h2, h3⟩ := h
  obtain ⟨s1, hs1, hs1M⟩ := solveStep_ok { M := A, v := b } 0 h0
  have h1' : ¬ zeroColumn s1.M 1 := by rw [hs1M]; exact h1
  obtain ⟨s2, hs2, hs2M⟩ := solveStep_ok s1 1 h1'
  have h2' : ¬ zeroColumn s2.M 2 := by rw [hs2M, hs1M]; exact h2
  obtain ⟨s3, hs3, hs3M⟩ := solveStep_ok s2 2 h2'
  have h3' : ¬ zeroColumn s3.M 3 := by rw [hs3M, hs2M, hs1M]; exact h3
  obtain ⟨s4, hs4, hs4M⟩ := solveStep_ok s3 3 h3'
  refine ⟨s4, ?_, by rw [hs4M, hs3M, hs2M, hs1M]; rfl⟩
  unfold forwardElim
  rw [elimLoop_cons_ok hs1, elimLoop_cons_ok hs2, elimLoop_cons_ok hs3,
    elimLoop_cons_ok hs4]
  rfl

theorem forwardElim_hitsZero (A : Mat4) (b : Vec4) (h : hitsZero A) :
    forwardElim { M := A, v := b } = Except.error pivotErr := by
  unfold forwardElim
  by_cases h0 : zeroColumn A 0
  · rw [elimLoop_cons_error (solveStep_eq_error { M := A, v := b } 0 h0)]
  · obtain ⟨s1, hs1, hs1M⟩ := solveStep_ok { M := A, v := b } 0 h0
    rw [elimLoop_cons_ok hs1]
    by_cases h1 : zeroColumn (stage1 A) 1
    · rw [elimLoop_cons_error (solveStep_eq_error s1 1 (by rw [hs1M]; exact h1))]
    · obtain ⟨s2, hs2, hs2M⟩ := solveStep_ok s1 1 (by rw [hs1M]; exact h1)
      rw [elimLoop_cons_ok hs2]
      by_cases h2 : zeroColumn (stage2 A) 2
      · rw [elimLoop_cons_error (solveStep_eq_error s2 2 (by rw [hs2M, hs1M]; exact h2))]
      · obtain ⟨s3, hs3, hs3M⟩ := solveStep_ok s2 2 (by rw [hs2M, hs1M]; exact h2)
        rw [elimLoop_cons_ok hs3]
        by_cases h3 : zeroColumn (stage3 A) 3
        · rw [elimLoop_cons_error (solveStep_eq_error s3 3
            (by rw [hs3M, hs2M, hs1M]; exact h3))]
        · exact absurd h (by
            unfold hitsZero
            push_neg
            exact ⟨h0, h1, h2, h3⟩)

theorem backSub_ok (s : AugState) (h : ∀ i, s.M i i ≠ 0) :
    ∃ x, backSub s = Except.ok x := by
  unfold backSub
  rw [if_neg (h 3), if_neg (h 2), if_neg (h 1), if_neg (h 0)]
  exact ⟨_, rfl⟩

theorem solve4x4_ok (A : Mat4) (b : Vec4) (h : ¬ hitsZero A) :
    ∃ x, solve4x4 A b = Except.ok x := by
  obtain ⟨s, hs, hsM⟩ := forwardElim_ok A b h
  obtain ⟨x, hx⟩ := backSub_ok s (by rw [hsM]; exact stage4_diag_ne_zero A h)
  refine ⟨x, ?_⟩
  unfold solve4x4
  rw [hs]
  exact hx

theorem solve4x4_hitsZero (A : Mat4) (b : Vec4) (h : hitsZero A) :
    solve4x4 A b = Except.error pivotErr := by
  unfold solve4x4
  rw [forwardElim_hitsZero A b h]

theorem solve4x4_error_iff (A : Mat4) (b : Vec4) :
    (∃ e, solve4x4 A b = Except.error e) ↔ hitsZero A := by
  constructor
  · intro ⟨e, he⟩
    by_contra h
    obtain ⟨x, hx⟩ := solve4x4_ok A b h
    rw [hx] at he
    exact Except.noConfusion he
  · intro h
    exact ⟨pivotErr, solve4x4_hitsZero A b h⟩

/-! ## `det4x4`: loop analysis -/

/-- Product of the per-column sign factors: `-1` for each column whose pivot
row differs from the column index (exactly the columns where Go flips
`sign`). -/
def signProd (A : Mat4) : ℚ :=
  (if (findPivot A 0).1 = 0 then 1 else -1) *
    (if (findPivot (stage1 A) 1).1 = 1 then 1 else -1) *
    (if (findPivot (stage2 A) 2).1 = 2 then 1 else -1) *
    (if (findPivot (stage3 A) 3).1 = 3 then 1 else -1)

theorem detLoop_cons_zero {col : Fin 4} {rest : List (Fin 4)} {m : Mat4} {det sign : ℚ}
    (h : (findPivot m col).2 = 0) : detLoop (col :: rest) m det sign = 0 := by
  rw [show detLoop (col :: rest) m det sign =
      (if (findPivot m col).2 = 0 then 0
       else detLoop rest (stepM m col)
         (det * (if (findPivot m col).1 = col then m
           else swapRows m col (findPivot m col).1) col col)
         (if (findPivot m col).1 = col then sign else -sign)) from rfl, if_pos h]

theorem detLoop_cons_ok {col : Fin 4} {rest : List (Fin 4)} {m : Mat4} {det sign : ℚ}
    (h : (findPivot m col).2 ≠ 0) :
    detLoop (col :: rest) m det sign =
      detLoop rest (stepM m col) (det * pivotVal m col)
        (if (findPivot m col).1 = col then sign else -sign) := by
  rw [show detLoop (col :: rest) m det sign =
      (if (findPivot m col).2 = 0 then 0
       else detLoop rest (stepM m col)
         (det * (if (findPivot m col).1 = col then m
           else swapRows m col (findPivot m col).1) col col)
         (if (findPivot m col).1 = col then sign else -sign)) from rfl, if_neg h,
    swapped_col_eq_pivotVal]

theorem detLoop_mul (rest : List (Fin 4)) (m : Mat4) (det sign : ℚ) :
    detLoop rest m det sign = det * sign * detLoop rest m 1 1 := by
  induction rest generalizing m det sign with
  | nil =>
    show det * sign = det * sign * (1 * 1)
    ring
  | cons col rest ih =>
    by_cases h : (findPivot m col).2 = 0
    · rw [detLoop_cons_zero h, detLoop_cons_zero h]
      ring
    · rw [detLoop_cons_ok h, detLoop_cons_ok h, ih (stepM m col),
        ih (stepM m col) (1 * pivotVal m col)]
      by_cases hc : (findPivot m col).1 = col
      · rw [if_pos hc, if_pos hc]; ring
      · rw [if_neg hc, if_neg hc]; ring

theorem pivotVal_zero (M : Mat4) (col : Fin 4) (h : zeroColumn M col) :
    pivotVal M col = 0 :=
  h (findPivot M col).1 (findPivot_fst_ge M col)

theorem fabs_ne_zero (a : ℚ) (h : a ≠ 0) : fabs a ≠ 0 :=
  fun h0 => h ((fabs_eq_zero_iff a).mp h0)

theorem findPivot_snd_ne_zero (M : Mat4) (col : Fin 4) (h : ¬ zeroColumn M col) :
    (findPivot M col).2 ≠ 0 :=
  fun h0 => h ((findPivot_zero_iff M col).mp h0)

theorem det4x4_eq_pivots (A : Mat4) :
    det4x4 A =
      pivotVal A 0 * pivotVal (stage1 A) 1 * pivotVal (stage2 A) 2 *
        pivotVal (stage3 A) 3 * signProd A := by
  unfold det4x4 signProd
  by_cases h0 : zeroColumn A 0
  · rw [detLoop_cons_zero ((findPivot_zero_iff A 0).mpr h0), pivotVal_zero A 0 h0]
    ring
  · rw [detLoop_cons_ok (findPivot_snd_ne_zero A 0 h0),
      show stepM A 0 = stage1 A from rfl]
    by_cases h1 : zeroColumn (stage1 A) 1
    · rw [detLoop_cons_zero ((findPivot_zero_iff (stage1 A) 1).mpr h1),
        pivotVal_zero (stage1 A) 1 h1]
      ring
    · rw [detLoop_cons_ok (findPivot_snd_ne_zero (stage1 A) 1 h1),
        show stepM (stage1 A) 1 = stage2 A from rfl]
      by_cases h2 : zeroColumn (stage2 A) 2
      · rw [detLoop_cons_zero ((findPivot_zero_iff (stage2 A) 2).mpr h2),
          pivotVal_zero (stage2 A) 2 h2]
        ring
      · rw [detLoop_cons_ok (findPivot_snd_ne_zero (stage2 A) 2 h2),
          show stepM (stage2 A) 2 = stage3 A from rfl]
        by_cases h3 : zeroColumn (stage3 A) 3
        · rw [detLoop_cons_zero ((findPivot_zero_iff (stage3 A) 3).mpr h3),
            pivotVal_zero (stage3 A) 3 h3]
          ring
        · rw [detLoop_cons_ok (findPivot_snd_ne_zero (stage3 A) 3 h3)]
          show (1 * pivotVal A 0 * pivotVal (stage1 A) 1 * pivotVal (stage2 A) 2 *
            pivotVal (stage3 A) 3) * _ = _
          by_cases c0 : (findPivot A 0).1 = 0 <;>
            by_cases c1 : (findPivot (stage1 A) 1).1 = 1 <;>
              by_cases c2 : (findPivot (stage2 A) 2).1 = 2 <;>
                by_cases c3 : (findPivot (stage3 A) 3).1 = 3 <;>
                  simp only [if_pos, if_neg, c0, c1, c2, c3, if_true, if_false] <;> ring

/-! ## Connecting the elimination to `Matrix.det` -/

/-- The matrix determinant of a `Mat4`, via Mathlib. -/
def mdet (M : Mat4) : ℚ := Matrix.det (Matrix.of M)

theorem mdet_swapRows (M : Mat4) (i j : Fin 4) (h : i ≠ j) :
    mdet (swapRows M i j) = -mdet M := by
  unfold mdet
  rw [show Matrix.of (swapRows M i j) = ((Matrix.of M).submatrix (Equiv.swap i j) id) from by
    funext r c
    show swapRows M i j r c = M (Equiv.swap i j r) c
    rw [swapRows_eq_perm]]
  rw [Matrix.det_permute, Equiv.Perm.sign_swap h]
  push_cast
  ring

/-- Row-by-row elimination below the pivot, as Go's inner loop performs it:
each row `r` in the list is replaced by `row r - factor * row col`, the
factor read from the current state. -/
def elimRows (N : Mat4) (col : Fin 4) : List (Fin 4) → Mat4
  | [] => N
  | r :: rest =>
      elimRows (Matrix.updateRow N r (fun c => N r c - N r col / N col col * N col c)) col rest

theorem elimRows_cons (N : Mat4) (col r : Fin 4) (rest : List (Fin 4)) :
    elimRows N col (r :: rest) =
      elimRows (Matrix.updateRow N r (fun c => N r c - N r col / N col col * N col c))
        col rest := rfl

set_option maxHeartbeats 1000000 in
theorem elimRows_det (col : Fin 4) :
    ∀ (rs : List (Fin 4)) (N : Mat4), col ∉ rs →
      mdet (elimRows N col rs) = mdet N := by
  intro rs
  induction rs with
  | nil => intro N _; rfl
  | cons r rest ih =>
    intro N hmem
    have hr : r ≠ col := fun h => hmem (h ▸ List.mem_cons_self r rest)
    have hrest : col ∉ rest := fun h => hmem (List.mem_cons_of_mem r h)
    rw [elimRows_cons, ih _ hrest]
    unfold mdet
    rw [show (fun c => N r c - N r col / N col col * N col c) =
        (Matrix.of N) r + (-(N r col / N col col)) • (Matrix.of N) col from by
      funext c
      show N r c - N r col / N col col * N col c =
        N r c + (-(N r col / N col col)) * N col c
      ring]
    exact Matrix.det_updateRow_add_smul_self (Matrix.of N) hr _

theorem elimRows_apply (col : Fin 4) :
    ∀ (rs : List (Fin 4)) (N : Mat4), rs.Nodup → col ∉ rs → ∀ r : Fin 4,
      elimRows N col rs r =
        if r ∈ rs then (fun c => N r c - N r col / N col col * N col c) else N r := by
  intro rs
  induction rs with
  | nil =>
    intro N _ _ r
    rw [if_neg (List.not_mem_nil r)]
    rfl
  | cons a rest ih =>
    intro N hnd hmem r
    have ha : a ∉ rest := (List.nodup_cons.mp hnd).1
    have hndr : rest.Nodup := (List.nodup_cons.mp hnd).2
    have hac : a ≠ col := fun h => hmem (h ▸ List.mem_cons_self a rest)
    have hrest : col ∉ rest := fun h => hmem (List.mem_cons_of_mem a h)
    rw [elimRows_cons, ih _ hndr hrest r]
    by_cases hr : r ∈ rest
    · have hra : r ≠ a := fun h => ha (h ▸ hr)
      rw [if_pos hr, if_pos (List.mem_cons_of_mem a hr)]
      funext c
      rw [Matrix.updateRow_ne hra, Matrix.updateRow_ne hac.symm]
    · rw [if_neg hr]
      by_cases hra : r = a
      · subst hra
        rw [if_pos (List.mem_cons_self r rest), Matrix.updateRow_self]
      · rw [if_neg (fun h => by
          rcases List.mem_cons.mp h with h1 | h1
          · exact hra h1
          · exact hr h1)]
        rw [Matrix.updateRow_ne hra]

theorem rowsAfter_nodup : ∀ col : Fin 4, (rowsAfter col).Nodup := by decide

theorem not_mem_rowsAfter : ∀ col : Fin 4, col ∉ rowsAfter col := by decide

theorem mem_rowsAfter_lt : ∀ col r : Fin 4, r ∈ rowsAfter col ↔ col < r := by decide

theorem elimBelow_eq_elimRows (M1 : Mat4) (col : Fin 4)
    (hrow : ∀ c, c < col → M1 col c = 0) :
    elimBelow M1 col = elimRows M1 col (rowsAfter col) := by
  funext r c
  rw [show elimRows M1 col (rowsAfter col) r c =
      (if r ∈ rowsAfter col then (fun c => M1 r c - M1 r col / M1 col col * M1 col c)
        else M1 r) c from by
    rw [elimRows_apply col (rowsAfter col) M1 (rowsAfter_nodup col) (not_mem_rowsAfter col) r]]
  unfold elimBelow
  by_cases hr : col < r
  · rw [if_pos ((mem_rowsAfter_lt col r).mpr hr)]
    by_cases hc : col ≤ c
    · rw [if_pos (And.intro hr hc)]
    · rw [if_neg (fun hcond => hc hcond.2)]
      show M1 r c = M1 r c - M1 r col / M1 col col * M1 col c
      rw [hrow c (not_le.mp hc)]
      ring
  · rw [if_neg ((fun h => hr ((mem_rowsAfter_lt col r).mp h)) :
      r ∉ rowsAfter col)]
    rw [if_neg (fun hcond => hr hcond.1)]

theorem mdet_stepM (M : Mat4) (col : Fin 4) (h : belowDiagZero M (col : ℕ)) :
    mdet (stepM M col) =
      (if (findPivot M col).1 = col then 1 else -1) * mdet M := by
  unfold stepM
  set p := (findPivot M col).1 with hp
  have hrow : ∀ c, c < col →
      (if p = col then M else swapRows M col p) col c = 0 := by
    intro c hc
    by_cases hpc : p = col
    · rw [if_pos hpc]
      exact h col c (by rwa [Fin.lt_def] at hc) hc
    · rw [if_neg hpc, swapRows_left]
      exact h p c (by rwa [Fin.lt_def] at hc)
        (lt_of_lt_of_le hc (by rw [hp]; exact findPivot_fst_ge M col))
  rw [elimBelow_eq_elimRows _ col hrow,
    elimRows_det col (rowsAfter col) _ (not_mem_rowsAfter col)]
  by_cases hpc : p = col
  · rw [if_pos hpc, if_pos hpc, one_mul]
  · rw [if_neg hpc, if_neg hpc, mdet_swapRows M col p (fun hh => hpc hh.symm)]
    ring

theorem belowDiag_stage1 (A : Mat4) : belowDiagZero (stage1 A) 1 := by
  have h0 : belowDiagZero A (((0 : Fin 4) : ℕ)) := by
    intro r c hc
    simp only [Fin.val_zero] at hc
    exact absurd hc (Nat.not_lt_zero _)
  simpa using stepM_belowDiag A 0 h0

theorem belowDiag_stage2 (A : Mat4) : belowDiagZero (stage2 A) 2 := by
  have h1 : belowDiagZero (stage1 A) (((1 : Fin 4) : ℕ)) := belowDiag_stage1 A
  simpa using stepM_belowDiag (stage1 A) 1 h1

theorem belowDiag_stage3 (A : Mat4) : belowDiagZero (stage3 A) 3 := by
  have h2 : belowDiagZero (stage2 A) (((2 : Fin 4) : ℕ)) := belowDiag_stage2 A
  simpa using stepM_belowDiag (stage2 A) 2 h2

theorem belowDiag_stage4 (A : Mat4) : belowDiagZero (stage4 A) 4 := by
  have h3 : belowDiagZero (stage3 A) (((3 : Fin 4) : ℕ)) := belowDiag_stage3 A
  simpa using stepM_belowDiag (stage3 A) 3 h3

theorem mdet_stage4_eq (A : Mat4) : mdet (stage4 A) = signProd A * mdet A := by
  have e4 : mdet (stage4 A) =
      (if (findPivot (stage3 A) 3).1 = 3 then 1 else -1) * mdet (stage3 A) :=
    mdet_stepM (stage3 A) 3 (belowDiag_stage3 A)
  have e3 : mdet (stage3 A) =
      (if (findPivot (stage2 A) 2).1 = 2 then 1 else -1) * mdet (stage2 A) :=
    mdet_stepM (stage2 A) 2 (belowDiag_stage2 A)
  have e2 : mdet (stage2 A) =
      (if (findPivot (stage1 A) 1).1 = 1 then 1 else -1) * mdet (stage1 A) :=
    mdet_stepM (stage1 A) 1 (belowDiag_stage1 A)
  have e1 : mdet (stage1 A) =
      (if (findPivot A 0).1 = 0 then 1 else -1) * mdet A :=
    mdet_stepM A 0 (by
      intro r c hc
      simp only [Fin.val_zero] at hc
      exact absurd hc (Nat.not_lt_zero _))
  rw [e4, e3, e2, e1]
  unfold signProd
  ring

theorem signProd_sq (A : Mat4) : signProd A * signProd A = 1 := by
  unfold signProd
  split_ifs <;> norm_num

theorem signProd_ne_zero (A : Mat4) : signProd A ≠ 0 := by
  intro h
  have := signProd_sq A
  rw [h] at this
  norm_num at this

theorem mdet_stage4_diag (A : Mat4) :
    mdet (stage4 A) =
      stage4 A 0 0 * stage4 A 1 1 * stage4 A 2 2 * stage4 A 3 3 := by
  have htri : (Matrix.of (stage4 A)).BlockTriangular id := by
    intro i j hji
    exact belowDiag_stage4 A i j (j.isLt) hji
  unfold mdet
  rw [Matrix.det_of_upperTriangular htri, Fin.prod_univ_four]
  rfl

theorem det4x4_eq_mdet (A : Mat4) : det4x4 A = mdet A := by
  obtain ⟨d0, d1, d2, d3⟩ := stage4_diag A
  have h2 : mdet (stage4 A) =
      pivotVal A 0 * pivotVal (stage1 A) 1 * pivotVal (stage2 A) 2 *
        pivotVal (stage3 A) 3 := by
    rw [mdet_stage4_diag, d0, d1, d2, d3]
  have h1 := mdet_stage4_eq A
  have hs := signProd_sq A
  calc det4x4 A
      = pivotVal A 0 * pivotVal (stage1 A) 1 * pivotVal (stage2 A) 2 *
          pivotVal (stage3 A) 3 * signProd A := det4x4_eq_pivots A
    _ = mdet (stage4 A) * signProd A := by rw [h2]
    _ = (signProd A * mdet A) * signProd A := by rw [h1]
    _ = (signProd A * signProd A) * mdet A := by ring
    _ = mdet A := by rw [hs, one_mul]

theorem mdet_eq_zero_iff (A : Mat4) : mdet A = 0 ↔ hitsZero A := by
  constructor
  · intro h
    by_contra hz
    unfold hitsZero at hz
    push_neg at hz
    obtain ⟨h0, h1, h2, h3⟩ := hz
    have := det4x4_eq_mdet A
    rw [h, det4x4_eq_pivots A] at this
    exact (mul_ne_zero (mul_ne_zero (mul_ne_zero (mul_ne_zero
      (pivotVal_ne_zero A 0 h0) (pivotVal_ne_zero (stage1 A) 1 h1))
      (pivotVal_ne_zero (stage2 A) 2 h2)) (pivotVal_ne_zero (stage3 A) 3 h3))
      (signProd_ne_zero A)) this
  · intro h
    rw [← det4x4_eq_mdet, det4x4_eq_pivots A]
    rcases h with h | h | h | h
    · rw [pivotVal_zero A 0 h]; ring
    · rw [pivotVal_zero (stage1 A) 1 h]; ring
    · rw [pivotVal_zero (stage2 A) 2 h]; ring
    · rw [pivotVal_zero (stage3 A) 3 h]; ring

theorem solve4x4_ok_iff_mdet (A : Mat4) (b : Vec4) :
    (∃ x, solve4x4 A b = Except.ok x) ↔ mdet A ≠ 0 := by
  constructor
  · intro ⟨x, hx⟩ h
    rw [solve4x4_hitsZero A b ((mdet_eq_zero_iff A).mp h)] at hx
    exact Except.noConfusion hx
  · intro h
    exact solve4x4_ok A b (fun hz => h ((mdet_eq_zero_iff A).mpr hz))

/-! ## `ComputeFactors` accessors and evaluation helpers -/

theorem sum5_eq_finsetSum (f : Fin 5 → ℚ) : sum5 f = ∑ k : Fin 5, f k := by
  rw [Fin.sum_univ_five]
  unfold sum5
  ring

theorem sum4_eq_finsetSum (f : Fin 4 → ℚ) : sum4 f = ∑ i : Fin 4, f i := by
  rw [Fin.sum_univ_four]
  unfold sum4
  ring

theorem ridgeA_zero (A : Mat4) : ridgeA A 0 = A := by
  unfold ridgeA
  rw [if_neg (by norm_num)]

theorem ridgeA_ne (A : Mat4) (ridge : ℚ) (h : ridge ≠ 0) :
    ridgeA A ridge = fun i j => if i = j then A i j + ridge else A i j := by
  unfold ridgeA
  rw [if_pos h]

theorem ridgeA_diag (A : Mat4) (ridge : ℚ) (h : ridge ≠ 0) (i : Fin 4) :
    ridgeA A ridge i i = A i i + ridge := by
  rw [ridgeA_ne A ridge h]
  show (if i = i then A i i + ridge else A i i) = A i i + ridge
  rw [if_pos rfl]

theorem ridgeA_offdiag (A : Mat4) (ridge : ℚ) (h : ridge ≠ 0) (i j : Fin 4)
    (hij : i ≠ j) : ridgeA A ridge i j = A i j := by
  rw [ridgeA_ne A ridge h]
  show (if i = j then A i j + ridge else A i j) = A i j
  rw [if_neg hij]

theorem ComputeFactors_A (cal : CalibrationData) (ridge : ℚ) :
    (ComputeFactors cal ridge).2.1 = ridgeA (buildA0 cal) ridge := by
  unfold ComputeFactors
  cases hsol : solve4x4 (ridgeA (buildA0 cal) ridge) (buildB cal) <;> rfl

theorem ComputeFactors_b (cal : CalibrationData) (ridge : ℚ) :
    (ComputeFactors cal ridge).2.2.1 = buildB cal := by
  unfold ComputeFactors
  cases hsol : solve4x4 (ridgeA (buildA0 cal) ridge) (buildB cal) <;> rfl

theorem ComputeFactors_of_error (cal : CalibrationData) (ridge : ℚ) (e : GoErr)
    (h : solve4x4 (ridgeA (buildA0 cal) ridge) (buildB cal) = Except.error e) :
    (ComputeFactors cal ridge).2.2.2 =
      some (GoErr.wrapped ("could not solve normal equations") e) := by
  unfold ComputeFactors
  rw [h]

theorem ComputeFactors_of_ok (cal : CalibrationData) (ridge : ℚ) (x : Vec4)
    (h : solve4x4 (ridgeA (buildA0 cal) ridge) (buildB cal) = Except.ok x) :
    (ComputeFactors cal ridge).1 = x ∧ (ComputeFactors cal ridge).2.2.2 = none := by
  unfold ComputeFactors
  rw [h]
  exact ⟨rfl, rfl⟩

theorem ComputeFactors_err_none_iff (cal : CalibrationData) (ridge : ℚ) :
    (ComputeFactors cal ridge).2.2.2 = none ↔
      ∃ x, solve4x4 (ridgeA (buildA0 cal) ridge) (buildB cal) = Except.ok x := by
  constructor
  · intro h
    cases hsol : solve4x4 (ridgeA (buildA0 cal) ridge) (buildB cal) with
    | error e =>
      rw [ComputeFactors_of_error cal ridge e hsol] at h
      exact Option.noConfusion h
    | ok x => exact ⟨x, rfl⟩
  · intro ⟨x, hx⟩
    exact (ComputeFactors_of_ok cal ridge x hx).2

/-! ## Concrete inputs used by the witnesses -/

/-- The 4×4 identity matrix (a well-conditioned solver input). -/
def idM : Mat4 := fun i j => if i = j then 1 else 0

/-- The spec's concrete calibration scenario scaled to weight 1: each cell
measurement is the matching unit vector, the center row is zero. -/
def calE : CalibrationData where
  CalibrationWeight := 1
  Zero := fun _ => 0
  OnCell0 := ![1, 0, 0, 0]
  OnCell1 := ![0, 1, 0, 0]
  OnCell2 := ![0, 0, 1, 0]
  OnCell3 := ![0, 0, 0, 1]
  OnCenter := ![0, 0, 0, 0]

/-- A degenerate dataset: all five measurements identical, so all five
delta rows are the same vector. -/
def calR : CalibrationData where
  CalibrationWeight := 1
  Zero := fun _ => 0
  OnCell0 := ![1, 0, 0, 0]
  OnCell1 := ![1, 0, 0, 0]
  OnCell2 := ![1, 0, 0, 0]
  OnCell3 := ![1, 0, 0, 0]
  OnCenter := ![1, 0, 0, 0]

theorem buildA0_calE : buildA0 calE = idM := by
  funext i j
  fin_cases i <;> fin_cases j <;>
    norm_num [buildA0, buildX, buildY, sum5, measurements, calE, idM,
      Matrix.cons_val_zero, Matrix.cons_val_one, Matrix.cons_val_two,
      Matrix.cons_val_three, Matrix.cons_val_four, Matrix.head_cons, Matrix.tail_cons,
      Matrix.vecHead, Matrix.vecTail, Fin.ext_iff]

theorem mdet_idM : mdet idM = 1 := by
  unfold mdet
  rw [show Matrix.of idM = (1 : Matrix (Fin 4) (Fin 4) ℚ) from by
    funext i j
    rw [Matrix.one_apply]
    rfl]
  exact Matrix.det_one

theorem not_hitsZero_idM : ¬ hitsZero idM := by
  intro h
  have := (mdet_eq_zero_iff idM).mpr h
  rw [mdet_idM] at this
  norm_num at this

theorem calE_solve_ok : ∃ x, solve4x4 (ridgeA (buildA0 calE) 0) (buildB calE) =
    Except.ok x := by
  rw [ridgeA_zero, buildA0_calE]
  exact (solve4x4_ok_iff_mdet idM (buildB calE)).mpr (by rw [mdet_idM]; norm_num)

theorem calR_buildX : ∀ k, buildX calR k = ![1, 0, 0, 0] := by
  intro k
  funext j
  fin_cases k <;> fin_cases j <;>
    norm_num [buildX, measurements, calR,
      Matrix.cons_val_zero, Matrix.cons_val_one, Matrix.cons_val_two,
      Matrix.cons_val_three, Matrix.cons_val_four, Matrix.head_cons, Matrix.tail_cons,
      Matrix.vecHead, Matrix.vecTail, Fin.ext_iff]

/-! ## Claim theorems -/

/-- C1: For every calibration dataset and ridge value, `ComputeFactors`
assembles the design matrix `X` with rows in the fixed order cell-0..cell-3,
center, where `X[k][j] = measurement[k][j] - zero[j]`; sets all five entries
of `y` to the calibration weight `W`; and (before any ridge adjustment,
i.e. in `buildA0`/`buildB`) computes `A[i][j] = Σ_k X[k][i]·X[k][j]` and
`b[i] = Σ_k X[k][i]·y[k]`, each sum accumulated in index order `k = 0..4`
(the left-nested sums below); the returned matrix and vector of
`ComputeFactors` are the ridge adjustment of this `A`, and this `b`. -/
theorem claim_C1_normal_equations (cal : CalibrationData) (ridge : ℚ) :
    (buildX cal 0 = fun j => cal.OnCell0 j - cal.Zero j) ∧
    (buildX cal 1 = fun j => cal.OnCell1 j - cal.Zero j) ∧
    (buildX cal 2 = fun j => cal.OnCell2 j - cal.Zero j) ∧
    (buildX cal 3 = fun j => cal.OnCell3 j - cal.Zero j) ∧
    (buildX cal 4 = fun j => cal.OnCenter j - cal.Zero j) ∧
    (∀ k, buildY cal k = cal.CalibrationWeight) ∧
    (∀ i j, buildA0 cal i j =
      0 + buildX cal 0 i * buildX cal 0 j + buildX cal 1 i * buildX cal 1 j +
        buildX cal 2 i * buildX cal 2 j + buildX cal 3 i * buildX cal 3 j +
        buildX cal 4 i * buildX cal 4 j) ∧
    (∀ i j, buildA0 cal i j = ∑ k : Fin 5, buildX cal k i * buildX cal k j) ∧
    (∀ i, buildB cal i =
      0 + buildX cal 0 i * buildY cal 0 + buildX cal 1 i * buildY cal 1 +
        buildX cal 2 i * buildY cal 2 + buildX cal 3 i * buildY cal 3 +
        buildX cal 4 i * buildY cal 4) ∧
    (∀ i, buildB cal i = ∑ k : Fin 5, buildX cal k i * buildY cal k) ∧
    (ComputeFactors cal ridge).2.1 = ridgeA (buildA0 cal) ridge ∧
    (ComputeFactors cal ridge).2.2.1 = buildB cal := by
  refine ⟨?_, ?_, ?_, ?_, ?_, fun k => rfl, fun i j => rfl,
    fun i j => sum5_eq_finsetSum _, fun i => rfl, fun i => sum5_eq_finsetSum _,
    ComputeFactors_A cal ridge, ComputeFactors_b cal ridge⟩ <;>
    funext j <;> rfl

/-- C2: `solve4x4` returns the singular-matrix error exactly when, at some
forward-elimination column, every candidate entry (rows `col..3` of that
column of the current working matrix — equivalently, the pivot search's
maximal absolute value) is exactly zero (`hitsZero`); and when forward
elimination completes, every diagonal entry of the final augmented matrix
is nonzero, so the defensive back-substitution check never fires and a
solution vector is returned. -/
theorem claim_C2_solver_singularity (A : Mat4) (b : Vec4) :
    ((∃ e, solve4x4 A b = Except.error e) ↔ hitsZero A) ∧
    (¬ hitsZero A →
      ∃ s, forwardElim { M := A, v := b } = Except.ok s ∧ s.M = stage4 A ∧
        (∀ i, s.M i i ≠ 0) ∧
        ∃ x, backSub s = Except.ok x ∧ solve4x4 A b = Except.ok x) := by
  refine ⟨solve4x4_error_iff A b, fun h => ?_⟩
  obtain ⟨s, hs, hsM⟩ := forwardElim_ok A b h
  have hdiag : ∀ i, s.M i i ≠ 0 := by rw [hsM]; exact stage4_diag_ne_zero A h
  obtain ⟨x, hx⟩ := backSub_ok s hdiag
  refine ⟨s, hs, hsM, hdiag, x, hx, ?_⟩
  unfold solve4x4
  rw [hs]
  exact hx

/-- C3: For every dataset and every `ridge ≠ 0`, the matrix returned by
`ComputeFactors(dataset, ridge)` differs from the one returned by
`ComputeFactors(dataset, 0)` by exactly `ridge` on each diagonal entry,
with all off-diagonal entries equal, and the returned `b` is identical. -/
theorem claim_C3_ridge_diagonal (cal : CalibrationData) (ridge : ℚ) (h : ridge ≠ 0) :
    (∀ i, (ComputeFactors cal ridge).2.1 i i = (ComputeFactors cal 0).2.1 i i + ridge) ∧
    (∀ i j, i ≠ j →
      (ComputeFactors cal ridge).2.1 i j = (ComputeFactors cal 0).2.1 i j) ∧
    (ComputeFactors cal ridge).2.2.1 = (ComputeFactors cal 0).2.2.1 := by
  refine ⟨fun i => ?_, fun i j hij => ?_, ?_⟩
  · rw [ComputeFactors_A, ComputeFactors_A, ridgeA_zero, ridgeA_diag _ _ h]
  · rw [ComputeFactors_A, ComputeFactors_A, ridgeA_zero, ridgeA_offdiag _ _ h _ _ hij]
  · rw [ComputeFactors_b, ComputeFactors_b]

/-- C3 witness at the concrete dataset `calE` and ridge 1. -/
theorem claim_C3_ridge_diagonal_witness :
    (∀ i, (ComputeFactors calE 1).2.1 i i = (ComputeFactors calE 0).2.1 i i + 1) ∧
    (∀ i j, i ≠ j →
      (ComputeFactors calE 1).2.1 i j = (ComputeFactors calE 0).2.1 i j) ∧
    (ComputeFactors calE 1).2.2.1 = (ComputeFactors calE 0).2.2.1 :=
  claim_C3_ridge_diagonal calE 1 one_ne_zero

theorem signProd_eq_pow (A : Mat4) : signProd A = (-1 : ℚ) ^ swapCount A := by
  unfold signProd swapCount
  split_ifs <;> norm_num

/-- C4: `det4x4` is total (its type returns a value for every matrix); it
returns 0 exactly on the `hitsZero` inputs (some pivot column's maximal
absolute value is zero), and otherwise the product of the four diagonal
pivots of the partial-pivoting triangularization times `(-1)^swaps`.
(The product identity in fact holds for every input, since a zero pivot
forces the product to 0 as well.) -/
theorem claim_C4_det_total_characterization (A : Mat4) :
    (hitsZero A → det4x4 A = 0) ∧
    (¬ hitsZero A →
      det4x4 A = pivotVal A 0 * pivotVal (stage1 A) 1 * pivotVal (stage2 A) 2 *
        pivotVal (stage3 A) 3 * (-1 : ℚ) ^ swapCount A) := by
  constructor
  · intro h
    rw [det4x4_eq_mdet]
    exact (mdet_eq_zero_iff A).mpr h
  · intro _
    rw [det4x4_eq_pivots A, signProd_eq_pow]

/-- C7: `ComputeWeight` equals the dot product of the factors with the
deltas, accumulated in index order (its defining fold), and is total by
type: every input produces a defined rational result. -/
theorem claim_C7_weight_formula (adc zero factors : Vec4) :
    ComputeWeight adc zero factors = ∑ i : Fin 4, factors i * (adc i - zero i) :=
  sum4_eq_finsetSum _

/-- C8: Swapping two distinct rows of `A` negates `det4x4` and preserves
its absolute value. -/
theorem claim_C8_det_row_swap (A : Mat4) (i j : Fin 4) (h : i ≠ j) :
    det4x4 (swapRows A i j) = -det4x4 A ∧
      |det4x4 (swapRows A i j)| = |det4x4 A| := by
  have h1 : det4x4 (swapRows A i j) = -det4x4 A := by
    rw [det4x4_eq_mdet, det4x4_eq_mdet, mdet_swapRows A i j h]
  exact ⟨h1, by rw [h1, abs_neg]⟩

/-- C8 witness: swapping rows 0 and 1 of the identity matrix. -/
theorem claim_C8_det_row_swap_witness :
    det4x4 (swapRows idM 0 1) = -det4x4 idM ∧
      |det4x4 (swapRows idM 0 1)| = |det4x4 idM| :=
  claim_C8_det_row_swap idM 0 1 (by decide)

/-- C10: `ComputeFactors` never validates the ridge parameter: for every
`ridge < 0` the (nonzero) ridge is still added to each diagonal entry, so
each diagonal strictly decreases, off-diagonals are untouched, and the
only error source remains the linear solve. -/
theorem claim_C10_no_ridge_validation (cal : CalibrationData) (ridge : ℚ)
    (h : ridge < 0) :
    (∀ i, (ComputeFactors cal ridge).2.1 i i = buildA0 cal i i + ridge) ∧
    (∀ i, (ComputeFactors cal ridge).2.1 i i < buildA0 cal i i) ∧
    (∀ i j, i ≠ j → (ComputeFactors cal ridge).2.1 i j = buildA0 cal i j) ∧
    ((ComputeFactors cal ridge).2.2.2 = none ↔
      ∃ x, solve4x4 (ridgeA (buildA0 cal) ridge) (buildB cal) = Except.ok x) := by
  have hne : ridge ≠ 0 := ne_of_lt h
  refine ⟨fun i => ?_, fun i => ?_, fun i j hij => ?_,
    ComputeFactors_err_none_iff cal ridge⟩
  · rw [ComputeFactors_A, ridgeA_diag _ _ hne]
  · rw [ComputeFactors_A, ridgeA_diag _ _ hne]
    linarith
  · rw [ComputeFactors_A, ridgeA_offdiag _ _ hne _ _ hij]

/-- C10 witness at the concrete dataset `calE` and ridge -1. -/
theorem claim_C10_no_ridge_validation_witness :
    (∀ i, (ComputeFactors calE (-1)).2.1 i i = buildA0 calE i i + (-1)) ∧
    (∀ i, (ComputeFactors calE (-1)).2.1 i i < buildA0 calE i i) ∧
    (∀ i j, i ≠ j → (ComputeFactors calE (-1)).2.1 i j = buildA0 calE i j) ∧
    ((ComputeFactors calE (-1)).2.2.2 = none ↔
      ∃ x, solve4x4 (ridgeA (buildA0 calE) (-1)) (buildB calE) = Except.ok x) :=
  claim_C10_no_ridge_validation calE (-1) (by norm_num)

/-! ## Error wrapping (C9) and diagnostics (C5) -/

/-- A fully zero calibration dataset: every delta row is zero, so the
normal matrix is the zero matrix and the solver must fail. -/
def calZ : CalibrationData where
  CalibrationWeight := 0
  Zero := fun _ => 0
  OnCell0 := fun _ => 0
  OnCell1 := fun _ => 0
  OnCell2 := fun _ => 0
  OnCell3 := fun _ => 0
  OnCenter := fun _ => 0

theorem buildA0_calZ_col0 : zeroColumn (buildA0 calZ) 0 := by
  intro r _
  show sum5 (fun k => buildX calZ k r * buildX calZ k 0) = 0
  norm_num [sum5, buildX, measurements, calZ,
    Matrix.cons_val_zero, Matrix.cons_val_one, Matrix.cons_val_two,
    Matrix.cons_val_three, Matrix.cons_val_four, Matrix.head_cons, Matrix.tail_cons,
    Matrix.vecHead, Matrix.vecTail]

theorem calZ_solve_error :
    solve4x4 (ridgeA (buildA0 calZ) 0) (buildB calZ) = Except.error pivotErr := by
  rw [ridgeA_zero]
  exact solve4x4_hitsZero _ _ (Or.inl buildA0_calZ_col0)

theorem errorsIs_self (e : GoErr) : errorsIs e e = true := by
  cases e <;> simp [errorsIs]

theorem errorsIs_wrapped_cause (p : String) (e : GoErr) :
    errorsIs (GoErr.wrapped p e) e = true := by
  rw [show errorsIs (GoErr.wrapped p e) e =
      (decide (GoErr.wrapped p e = e) || errorsIs e e) from rfl,
    errorsIs_self e, Bool.or_true]

/-- C9 counterexample: on the all-zero dataset the solver fails with the
zero-pivot error, but `ComputeFactors` returns a different error value —
the solver error wrapped under the prefix
`"could not solve normal equations"` (Go `fmt.Errorf(...%w...)`) — so the
fit's error is not the very error `solve4x4` produced. -/
theorem claim_C9_counterexample :
    solve4x4 (ridgeA (buildA0 calZ) 0) (buildB calZ) = Except.error pivotErr ∧
    (ComputeFactors calZ 0).2.2.2 =
      some (GoErr.wrapped ("could not solve normal equations") pivotErr) ∧
    GoErr.wrapped ("could not solve normal equations") pivotErr ≠ pivotErr := by
  refine ⟨calZ_solve_error, ComputeFactors_of_error _ _ _ calZ_solve_error, ?_⟩
  intro h
  exact GoErr.noConfusion h

/-- C9 (amended): whenever the linear solve fails, `ComputeFactors` returns
the solver's error wrapped — unchanged as the wrapped cause, with the fixed
prefix `"could not solve normal equations"` — so `errors.Is` recognises
the original solver error in what the caller receives. -/
theorem claim_C9_error_propagation (cal : CalibrationData) (ridge : ℚ) (e : GoErr)
    (h : solve4x4 (ridgeA (buildA0 cal) ridge) (buildB cal) = Except.error e) :
    (ComputeFactors cal ridge).2.2.2 =
      some (GoErr.wrapped ("could not solve normal equations") e) ∧
    errorsIs (GoErr.wrapped ("could not solve normal equations") e) e = true :=
  ⟨ComputeFactors_of_error cal ridge e h, errorsIs_wrapped_cause _ e⟩

/-- C9 witness: the amended propagation at the all-zero dataset. -/
theorem claim_C9_error_propagation_witness :
    (ComputeFactors calZ 0).2.2.2 =
      some (GoErr.wrapped ("could not solve normal equations") pivotErr) ∧
    errorsIs (GoErr.wrapped ("could not solve normal equations") pivotErr) pivotErr =
      true :=
  claim_C9_error_propagation calZ 0 pivotErr calZ_solve_error

/-- C5: for every dataset on which `ComputeFactors` succeeds, the
diagnostics of `main` satisfy: RSS is the sum over the five calibration
rows of the squared residual of the `ComputeWeight` estimate; `df = 5 - 4`
is positive, so `residualVariance = RSS / df` (the `df ≤ 0` fallback branch
of the code is not taken); `errorDeterminant = det4x4(A) · residualVariance`
with `A` the returned (post-ridge) normal matrix; and the convergence flag
equals the comparison `residualVariance < 1e-6`. -/
theorem claim_C5_diagnostics (cal : CalibrationData) (ridge : ℚ)
    (_h : (ComputeFactors cal ridge).2.2.2 = none) :
    diagRSS cal (ComputeFactors cal ridge).1 =
      (∑ k : Fin 5, (cal.CalibrationWeight -
        ComputeWeight (measurements cal k) cal.Zero (ComputeFactors cal ridge).1) *
        (cal.CalibrationWeight -
          ComputeWeight (measurements cal k) cal.Zero (ComputeFactors cal ridge).1)) ∧
    diagDf = 5 - 4 ∧ (0 : ℚ) < diagDf ∧
    diagResidualVar cal (ComputeFactors cal ridge).1 =
      diagRSS cal (ComputeFactors cal ridge).1 / diagDf ∧
    diagErrorDet cal (ComputeFactors cal ridge).1 (ComputeFactors cal ridge).2.1 =
      det4x4 (ComputeFactors cal ridge).2.1 *
        diagResidualVar cal (ComputeFactors cal ridge).1 ∧
    (diagOK cal (ComputeFactors cal ridge).1 = true ↔
      diagResidualVar cal (ComputeFactors cal ridge).1 < 1 / 1000000) := by
  refine ⟨?_, rfl, by norm_num [diagDf], ?_, rfl, ?_⟩
  · exact (sum5_eq_finsetSum _).trans (Finset.sum_congr rfl fun k _ => rfl)
  · unfold diagResidualVar
    rw [if_pos (by norm_num [diagDf])]
  · exact decide_eq_true_iff

/-- C5 witness at the concrete dataset `calE` (on which the fit succeeds). -/
theorem claim_C5_diagnostics_witness :
    diagRSS calE (ComputeFactors calE 0).1 =
      (∑ k : Fin 5, (calE.CalibrationWeight -
        ComputeWeight (measurements calE k) calE.Zero (ComputeFactors calE 0).1) *
        (calE.CalibrationWeight -
          ComputeWeight (measurements calE k) calE.Zero (ComputeFactors calE 0).1)) ∧
    diagDf = 5 - 4 ∧ (0 : ℚ) < diagDf ∧
    diagResidualVar calE (ComputeFactors calE 0).1 =
      diagRSS calE (ComputeFactors calE 0).1 / diagDf ∧
    diagErrorDet calE (ComputeFactors calE 0).1 (ComputeFactors calE 0).2.1 =
      det4x4 (ComputeFactors calE 0).2.1 *
        diagResidualVar calE (ComputeFactors calE 0).1 ∧
    (diagOK calE (ComputeFactors calE 0).1 = true ↔
      diagResidualVar calE (ComputeFactors calE 0).1 < 1 / 1000000) :=
  claim_C5_diagnostics calE 0
    ((ComputeFactors_err_none_iff calE 0).mpr calE_solve_ok)

/-! ## Rank-1 datasets (C6) -/

theorem rank1_buildA0 (cal : CalibrationData) (d : Vec4)
    (hrows : ∀ k, buildX cal k = d) : ∀ i j, buildA0 cal i j = 5 * (d i * d j) := by
  intro i j
  show 0 + buildX cal 0 i * buildX cal 0 j + buildX cal 1 i * buildX cal 1 j +
    buildX cal 2 i * buildX cal 2 j + buildX cal 3 i * buildX cal 3 j +
    buildX cal 4 i * buildX cal 4 j = 5 * (d i * d j)
  rw [hrows 0, hrows 1, hrows 2, hrows 3, hrows 4]
  ring

theorem sum_mul_indicator (d : Vec4) (a : Fin 4) :
    ∑ j : Fin 4, d j * (if j = a then 1 else 0) = d a := by
  rw [Finset.sum_congr rfl (fun j _ => by rw [mul_ite, mul_one, mul_zero]),
    Finset.sum_ite_eq' Finset.univ a d, if_pos (Finset.mem_univ a)]

theorem rank1_mdet_zero (cal : CalibrationData) (d : Vec4)
    (hrows : ∀ k, buildX cal k = d) : mdet (buildA0 cal) = 0 := by
  have hA := rank1_buildA0 cal d hrows
  unfold mdet
  apply (Matrix.exists_mulVec_eq_zero_iff).mp
  by_cases hd : ∀ t, d t = 0
  · refine ⟨(fun t => if t = 0 then 1 else 0), ?_, ?_⟩
    · intro h0
      have h1 := congrFun h0 0
      norm_num at h1
    · funext i
      show (∑ j : Fin 4, buildA0 cal i j * (if j = 0 then 1 else 0)) = (0 : ℚ)
      exact Finset.sum_eq_zero (fun j _ => by rw [hA i j, hd i]; ring)
  · push_neg at hd
    obtain ⟨t0, ht0⟩ := hd
    set j0 : Fin 4 := if t0 = 0 then 1 else 0 with hj0
    have hne : j0 ≠ t0 := by
      by_cases h : t0 = 0
      · subst h; rw [hj0, if_pos rfl]; decide
      · rw [hj0, if_neg h]; exact fun hh => h hh.symm
    refine ⟨(fun t => if t = j0 then d t0 else if t = t0 then -(d j0) else 0), ?_, ?_⟩
    · intro h0
      have h1 := congrFun h0 j0
      rw [if_pos rfl] at h1
      exact ht0 h1
    · have hv_eq : ∀ t, (if t = j0 then d t0 else if t = t0 then -(d j0) else 0) =
          d t0 * (if t = j0 then 1 else 0) - d j0 * (if t = t0 then 1 else 0) := by
        intro t
        by_cases h1 : t = j0
        · subst h1; rw [if_pos rfl, if_pos rfl, if_neg hne]; ring
        · rw [if_neg h1, if_neg h1]
          by_cases h2 : t = t0
          · rw [if_pos h2, if_pos h2]; ring
          · rw [if_neg h2, if_neg h2]; ring
      have hS : ∑ j : Fin 4, d j *
          (if j = j0 then d t0 else if j = t0 then -(d j0) else 0) = 0 := by
        calc ∑ j : Fin 4, d j * (if j = j0 then d t0 else if j = t0 then -(d j0) else 0)
            = ∑ j : Fin 4, (d t0 * (d j * (if j = j0 then 1 else 0)) -
                d j0 * (d j * (if j = t0 then 1 else 0))) :=
              Finset.sum_congr rfl (fun j _ => by rw [hv_eq j]; ring)
          _ = d t0 * (∑ j : Fin 4, d j * (if j = j0 then 1 else 0)) -
                d j0 * (∑ j : Fin 4, d j * (if j = t0 then 1 else 0)) := by
              rw [Finset.sum_sub_distrib, Finset.mul_sum, Finset.mul_sum]
          _ = d t0 * d j0 - d j0 * d t0 := by
              rw [sum_mul_indicator d j0, sum_mul_indicator d t0]
          _ = 0 := by ring
      funext i
      show (∑ j : Fin 4, buildA0 cal i j *
        (if j = j0 then d t0 else if j = t0 then -(d j0) else 0)) = (0 : ℚ)
      calc ∑ j : Fin 4, buildA0 cal i j *
            (if j = j0 then d t0 else if j = t0 then -(d j0) else 0)
          = ∑ j : Fin 4, 5 * d i * (d j *
              (if j = j0 then d t0 else if j = t0 then -(d j0) else 0)) :=
            Finset.sum_congr rfl (fun j _ => by rw [hA i j]; ring)
        _ = 5 * d i * ∑ j : Fin 4, d j *
              (if j = j0 then d t0 else if j = t0 then -(d j0) else 0) :=
            (Finset.mul_sum Finset.univ _ _).symm
        _ = 0 := by rw [hS]; ring

theorem rank1_ridge_mdet_ne (cal : CalibrationData) (d : Vec4)
    (hrows : ∀ k, buildX cal k = d) (ridge : ℚ) (hr : 0 < ridge) :
    mdet (ridgeA (buildA0 cal) ridge) ≠ 0 := by
  have hA := rank1_buildA0 cal d hrows
  have hne : ridge ≠ 0 := ne_of_gt hr
  intro h0
  unfold mdet at h0
  obtain ⟨v, hv, hmv⟩ := (Matrix.exists_mulVec_eq_zero_iff).mpr h0
  set S := ∑ j : Fin 4, d j * v j with hSdef
  have hentry : ∀ i j : Fin 4, ridgeA (buildA0 cal) ridge i j =
      5 * (d i * d j) + (if i = j then ridge else 0) := by
    intro i j
    by_cases hij : i = j
    · subst hij; rw [ridgeA_diag _ _ hne, hA, if_pos rfl]
    · rw [ridgeA_offdiag _ _ hne _ _ hij, hA, if_neg hij]; ring
  have heq : ∀ i, 5 * d i * S + ridge * v i = 0 := by
    intro i
    have h1 : (∑ j : Fin 4, ridgeA (buildA0 cal) ridge i j * v j) = (0 : ℚ) := by
      have h2 := congrFun hmv i
      exact h2
    have hite : ∑ j : Fin 4, (if i = j then ridge else 0) * v j = ridge * v i := by
      rw [Finset.sum_congr rfl (fun j _ => by rw [ite_mul, zero_mul]),
        Finset.sum_ite_eq Finset.univ i (fun j => ridge * v j),
        if_pos (Finset.mem_univ i)]
    calc 5 * d i * S + ridge * v i
        = (∑ j : Fin 4, 5 * (d i * d j) * v j) +
            (∑ j : Fin 4, (if i = j then ridge else 0) * v j) := by
          rw [hite, hSdef, Finset.mul_sum]
          congr 1
          exact Finset.sum_congr rfl (fun j _ => by ring)
      _ = ∑ j : Fin 4, (5 * (d i * d j) * v j + (if i = j then ridge else 0) * v j) :=
          (Finset.sum_add_distrib).symm
      _ = ∑ j : Fin 4, ridgeA (buildA0 cal) ridge i j * v j :=
          Finset.sum_congr rfl (fun j _ => by rw [hentry i j]; ring)
      _ = 0 := h1
  have hQ : (0 : ℚ) ≤ ∑ j : Fin 4, d j * d j :=
    Finset.sum_nonneg (fun j _ => mul_self_nonneg (d j))
  have hSS : S * (5 * (∑ j : Fin 4, d j * d j) + ridge) = 0 := by
    have h4 : ∑ i : Fin 4, d i * (5 * d i * S + ridge * v i) = 0 :=
      Finset.sum_eq_zero (fun i _ => by rw [heq i]; ring)
    calc S * (5 * (∑ j : Fin 4, d j * d j) + ridge)
        = 5 * S * (∑ j : Fin 4, d j * d j) + ridge * S := by ring
      _ = 5 * S * (∑ j : Fin 4, d j * d j) + ridge * (∑ j : Fin 4, d j * v j) := by
          rw [hSdef]
      _ = ∑ i : Fin 4, (5 * S * (d i * d i) + ridge * (d i * v i)) := by
          rw [Finset.sum_add_distrib, ← Finset.mul_sum, ← Finset.mul_sum]
      _ = ∑ i : Fin 4, d i * (5 * d i * S + ridge * v i) :=
          Finset.sum_congr rfl (fun i _ => by ring)
      _ = 0 := h4
  have hpos : 0 < 5 * (∑ j : Fin 4, d j * d j) + ridge := by linarith
  have hS0 : S = 0 := by
    rcases mul_eq_zero.mp hSS with h | h
    · exact h
    · exact absurd h (ne_of_gt hpos)
  apply hv
  funext i
  have h5 : ridge * v i = 0 := by
    have h6 := heq i
    rw [hS0] at h6
    linear_combination h6
  show v i = (0 : ℚ)
  exact (mul_eq_zero.mp h5).resolve_left hne

/-- C6: for every dataset whose five delta rows are all the same vector
(rank ≤ 1 normal matrix), `ComputeFactors` with ridge 0 fails with the
wrapped SingularMatrix error, and with any ridge > 0 it succeeds. -/
theorem claim_C6_rank1_singularity (cal : CalibrationData) (d : Vec4)
    (hrows : ∀ k, buildX cal k = d) :
    (ComputeFactors cal 0).2.2.2 =
      some (GoErr.wrapped ("could not solve normal equations") pivotErr) ∧
    ∀ ridge : ℚ, 0 < ridge →
      (ComputeFactors cal ridge).2.2.2 = none ∧
      ∃ x, (ComputeFactors cal ridge).1 = x ∧
        solve4x4 (ridgeA (buildA0 cal) ridge) (buildB cal) = Except.ok x := by
  constructor
  · apply ComputeFactors_of_error
    rw [ridgeA_zero]
    apply solve4x4_hitsZero
    apply (mdet_eq_zero_iff _).mp
    exact rank1_mdet_zero cal d hrows
  · intro ridge hr
    obtain ⟨x, hx⟩ :=
      (solve4x4_ok_iff_mdet _ _).mpr (rank1_ridge_mdet_ne cal d hrows ridge hr)
    obtain ⟨hfac, herr⟩ := ComputeFactors_of_ok cal ridge x hx
    exact ⟨herr, x, hfac, hx⟩

/-- C6 witness: the concrete dataset `calR` whose five delta rows all equal
`(1, 0, 0, 0)`, with ridge 1 for the success half. -/
theorem claim_C6_rank1_singularity_witness :
    ((ComputeFactors calR 0).2.2.2 =
      some (GoErr.wrapped ("could not solve normal equations") pivotErr)) ∧
    ((ComputeFactors calR 1).2.2.2 = none ∧
      ∃ x, (ComputeFactors calR 1).1 = x ∧
        solve4x4 (ridgeA (buildA0 calR) 1) (buildB calR) = Except.ok x) :=
  ⟨(claim_C6_rank1_singularity calR (![1, 0, 0, 0]) calR_buildX).1,
    (claim_C6_rank1_singularity calR (![1, 0, 0, 0]) calR_buildX).2 1 one_pos⟩
